import Mathlib

/-!
Shallow embedding of `inst.py` (angelmz/reeltik): a media downloader with a
JSON history store keyed by account, a clamped-and-jittered rate delay, an
eligibility filter on probed size/duration, and a bounded-retry fetcher.
Network and random effects are passed in as explicit oracles; the filesystem
is an explicit value threaded through each operation.
-/

/-- The persisted history mapping: JSON object account ↦ list of item ids,
as loaded from `download_history.json` / `tiktok_history.json`. -/
abbrev History := List (String × List String)

/-- Dictionary lookup on the history object (first binding wins). -/
def histGet (h : History) (u : String) : Option (List String) :=
  match h with
  | [] => none
  | (k, v) :: rest => if k = u then some v else histGet rest u

/-- Dictionary assignment `dict[u] = vs` on the history object. -/
def histSet (h : History) (u : String) (vs : List String) : History :=
  match h with
  | [] => [(u, vs)]
  | (k, v) :: rest => if k = u then (u, vs) :: rest else (k, v) :: histSet rest u vs

/-- `username in dict and itemId in dict[username]`: the pure membership test
both `_is_already_downloaded` methods start from. -/
def recorded (h : History) (u v : String) : Bool :=
  match histGet h u with
  | some l => decide (v ∈ l)
  | none => false

/-- Every account's list in the history is duplicate-free. -/
def histNodup (h : History) : Prop := ∀ u, ((histGet h u).getD []).Nodup

/-- `charsMatch p s` is true when `p` is an initial run of `s`. -/
def charsMatch : List Char → List Char → Bool
  | [], _ => true
  | _ :: _, [] => false
  | a :: as, b :: bs => a == b && charsMatch as bs

/-- `hasSubChars pat s` is true when `pat` occurs contiguously inside `s`. -/
def hasSubChars (pat : List Char) : List Char → Bool
  | [] => charsMatch pat []
  | c :: cs => charsMatch pat (c :: cs) || hasSubChars pat cs

/-- Filename glob `*pat*`: does `pat` occur inside `s`? -/
def hasSubStr (s pat : String) : Bool := hasSubChars pat.toList s.toList

/-- The filesystem visible to the downloader: existing directories and files,
a file being (directory, name, size in bytes). -/
structure FS where
  dirs : List String
  files : List (String × String × Nat)
deriving DecidableEq

/-- `os.path.exists` on a directory path. -/
def FS.dirExists (fs : FS) (d : String) : Bool :=
  fs.dirs.contains d || fs.files.any (fun p => p.1 == d)

/-- `os.makedirs(d, exist_ok=True)`. -/
def FS.addDir (fs : FS) (d : String) : FS :=
  if fs.dirs.contains d then fs else ⟨fs.dirs ++ [d], fs.files⟩

/-- `open(path, 'wb')` followed by writing `size` bytes: replaces any file of
the same name in the same directory. -/
def FS.addFile (fs : FS) (d name : String) (size : Nat) : FS :=
  ⟨fs.dirs, fs.files.filter (fun p => !(p.1 == d && p.2.1 == name)) ++ [(d, name, size)]⟩

/-- `os.remove`. -/
def FS.removeFile (fs : FS) (d name : String) : FS :=
  ⟨fs.dirs, fs.files.filter (fun p => !(p.1 == d && p.2.1 == name))⟩

/-- `clamp_delay`: ensure the delay is between 1 and 3 seconds. -/
def clamp_delay (delay : ℚ) : ℚ := max (1 : ℚ) (min (3 : ℚ) delay)

/-- The delay-related part of both constructors: the clamped delay, and
whether the adjustment warning was printed (it is printed exactly when the
adjustment exceeds 0.01). -/
structure DownloaderInit where
  delay : ℚ
  warned : Bool
deriving DecidableEq

/-- `__init__`: `self.delay = clamp_delay(delay)`, warning when
`abs(delay - self.delay) > 0.01`. -/
def downloaderInit (delay : ℚ) : DownloaderInit :=
  let d := clamp_delay delay
  ⟨d, decide ((1 : ℚ) / 100 < |delay - d|)⟩

/-- `min(3.0 - self.delay, 1.0)`: the jitter bound in `_get_random_delay`. -/
def max_additional_delay (delay : ℚ) : ℚ := min (3 - delay) 1

/-- One candidate post, with its probe oracles: `sizeProbe`/`durationProbe`
are `none` when the corresponding metadata fetch raises. -/
structure Post where
  owner : String
  shortcode : String
  date : String
  is_video : Bool
  sizeProbe : Option ℚ
  durationProbe : Option ℚ
deriving DecidableEq

/-- `{owner}_{date}_{shortcode}.mp4`. -/
def mediaFilename (p : Post) : String :=
  p.owner ++ "_" ++ p.date ++ "_" ++ p.shortcode ++ ".mp4"

/-- The sidecar `.txt` of the same stem. -/
def metaFilename (p : Post) : String :=
  p.owner ++ "_" ++ p.date ++ "_" ++ p.shortcode ++ ".txt"

/-- Outcome oracle for one attempt of `_retry_download`: an exception raised
before the media file is created, an empty resolved url, or a completed
transfer delivering the given chunk sizes. -/
inductive FetchStep where
  | raiseErr : FetchStep
  | noUrl : FetchStep
  | transfer : List Nat → FetchStep
deriving DecidableEq

/-- An attempt that does not complete a transfer. -/
def FetchStep.fails : FetchStep → Bool
  | FetchStep.transfer _ => false
  | _ => true

namespace ReelsDownloader

/-- `_get_random_delay`: `self.delay + random.uniform(0, max_additional_delay)`,
with the uniform draw `u` passed in as an oracle. -/
def get_random_delay (delay u : ℚ) : ℚ := delay + u

/-- `_mark_as_downloaded`: ensure the account key, append the shortcode if
absent, and report whether `_save_history` ran. -/
def mark_as_downloaded (h : History) (username shortcode : String) : History × Bool :=
  let h1 := match histGet h username with
    | none => histSet h username []
    | some _ => h
  if recorded h1 username shortcode then (h1, false)
  else (histSet h1 username (((histGet h1 username).getD []) ++ [shortcode]), true)

/-- Result of `_is_already_downloaded`: the boolean answer, the (possibly
repaired) history, and whether `_save_history` ran. -/
structure DedupResult where
  found : Bool
  hist : History
  saved : Bool
deriving DecidableEq

/-- `_is_already_downloaded`: history membership first, then the
reconciliation glob over `downloads/<username>` (note: not the directory the
downloader writes into), repairing and persisting the record on a match. -/
def is_already_downloaded (h : History) (fs : FS) (username shortcode : String) :
    DedupResult :=
  if recorded h username shortcode then ⟨true, h, false⟩
  else
    let dir := "downloads/" ++ username
    if FS.dirExists fs dir then
      if (fs.files.filter (fun p => p.1 == dir && hasSubStr p.2.1 shortcode)).isEmpty then
        ⟨false, h, false⟩
      else
        let h1 := match histGet h username with
          | none => histSet h username []
          | some _ => h
        if recorded h1 username shortcode then ⟨true, h1, false⟩
        else ⟨true, histSet h1 username (((histGet h1 username).getD []) ++ [shortcode]), true⟩
    else ⟨false, h, false⟩

/-- `_get_video_size_mb`: the probed size, or 0 when the probe raises. -/
def get_video_size_mb (p : Post) : ℚ :=
  match p.sizeProbe with
  | some s => s
  | none => 0

/-- `_get_video_duration`: the probed duration, or 0 when the probe raises. -/
def get_video_duration (p : Post) : ℚ :=
  match p.durationProbe with
  | some d => d
  | none => 0

/-- Trace of one `_meets_criteria` evaluation: the answer plus which probes
were performed. -/
structure CriteriaTrace where
  accepted : Bool
  sizeProbed : Bool
  durationProbed : Bool
deriving DecidableEq

/-- `_meets_criteria` with its probe trace: size first, early `return False`,
then duration. -/
def meets_criteria_trace (p : Post) (min_size min_duration : Option ℚ) : CriteriaTrace :=
  match min_size with
  | some ms =>
    if get_video_size_mb p < ms then ⟨false, true, false⟩
    else
      match min_duration with
      | some md =>
        if get_video_duration p < md then ⟨false, true, true⟩ else ⟨true, true, true⟩
      | none => ⟨true, true, false⟩
  | none =>
    match min_duration with
    | some md =>
      if get_video_duration p < md then ⟨false, false, true⟩ else ⟨true, false, true⟩
    | none => ⟨true, false, false⟩

/-- `_meets_criteria`: the boolean answer. -/
def meets_criteria (p : Post) (min_size min_duration : Option ℚ) : Bool :=
  (meets_criteria_trace p min_size min_duration).accepted

/-- Result of `_retry_download`: success flag, final history and filesystem,
the number of media-location resolutions performed, and the slept delays. -/
structure RetryResult where
  ok : Bool
  hist : History
  fs : FS
  resolutions : Nat
  sleeps : List ℚ
deriving DecidableEq

/-- The attempt loop of `_retry_download`: `i` is the current attempt index,
the second argument the attempts remaining; each attempt re-resolves the
media location, and a raised attempt sleeps `_get_random_delay()` before the
next one. A completed transfer writes the media file (size = sum of chunks,
with no emptiness check), writes the sidecar, and marks the history. -/
def retryGo (delay : ℚ) (u : Nat → ℚ) (steps : Nat → FetchStep) (post : Post)
    (dir : String) : Nat → Nat → History → FS → Nat → RetryResult
  | _, 0, h, fs, res => ⟨false, h, fs, res, []⟩
  | i, k + 1, h, fs, res =>
    match steps i with
    | FetchStep.raiseErr =>
      let r := retryGo delay u steps post dir (i + 1) k h fs (res + 1)
      ⟨r.ok, r.hist, r.fs, r.resolutions, get_random_delay delay (u i) :: r.sleeps⟩
    | FetchStep.noUrl => ⟨false, h, fs, res + 1, []⟩
    | FetchStep.transfer chunks =>
      let fs1 := FS.addFile fs dir (mediaFilename post) chunks.sum
      let fs2 := FS.addFile fs1 dir (metaFilename post) 1
      ⟨true, (mark_as_downloaded h post.owner post.shortcode).1, fs2, res + 1, []⟩

/-- `_retry_download(post, target_path)` with `self.max_retries = maxR`. -/
def retry_download (delay : ℚ) (u : Nat → ℚ) (steps : Nat → FetchStep) (post : Post)
    (dir : String) (h : History) (fs : FS) (maxR : Nat) : RetryResult :=
  retryGo delay u steps post dir 0 maxR h fs 0

/-- State of the analysis loop in `download_user_reels`. -/
structure Analysis where
  hist : History
  eligible : List Post
  skipped : Nat
  already : Nat
deriving DecidableEq

/-- `if limit and len(eligible_reels) >= limit` (a limit of 0 is falsy). -/
def limitHit (lim : Option Nat) (n : Nat) : Bool :=
  match lim with
  | none => false
  | some l => decide (0 < l) && decide (l ≤ n)

/-- The analysis loop of `download_user_reels`: skip non-videos, count
already-downloaded items, collect posts meeting criteria until the limit. -/
def analyzeLoop (fs : FS) (username : String) (min_size min_duration : Option ℚ)
    (lim : Option Nat) : List Post → Analysis → Analysis
  | [], st => st
  | p :: rest, st =>
    if !p.is_video then analyzeLoop fs username min_size min_duration lim rest st
    else
      let d := is_already_downloaded st.hist fs username p.shortcode
      if d.found then
        analyzeLoop fs username min_size min_duration lim rest
          ⟨d.hist, st.eligible, st.skipped, st.already + 1⟩
      else if meets_criteria p min_size min_duration then
        let elig := st.eligible ++ [p]
        if limitHit lim elig.length then ⟨d.hist, elig, st.skipped, st.already⟩
        else analyzeLoop fs username min_size min_duration lim rest
          ⟨d.hist, elig, st.skipped, st.already⟩
      else
        analyzeLoop fs username min_size min_duration lim rest
          ⟨d.hist, st.eligible, st.skipped + 1, st.already⟩

/-- The transfer loop of `download_user_reels`: each eligible post gets one
`_retry_download` call (with its own attempt oracles), failures only skip
the item; the shortcodes handed to the fetcher are logged in order. -/
def downloadPhase (delay : ℚ) (u2 : Nat → Nat → ℚ) (steps2 : Nat → Nat → FetchStep)
    (dir : String) (maxR : Nat) : List Post → Nat → History → FS → Nat → List String →
    History × FS × Nat × List String
  | [], _, h, fs, succ, fetched => (h, fs, succ, fetched)
  | p :: rest, idx, h, fs, succ, fetched =>
    let r := retryGo delay (u2 idx) (steps2 idx) p dir 0 maxR h fs 0
    downloadPhase delay u2 steps2 dir maxR rest (idx + 1) r.hist r.fs
      (if r.ok then succ + 1 else succ) (fetched ++ [p.shortcode])

/-- Result of one `download_user_reels` run. -/
structure BatchResult where
  hist : History
  fs : FS
  successCount : Nat
  fetched : List String
  already : Nat
  skippedCriteria : Nat
  exit : Option Nat
deriving DecidableEq

/-- `download_user_reels(username, limit, min_size_mb, min_duration)`: analyze
all candidate posts, then fetch the eligible ones; per-item failures never
terminate the process. -/
def download_user_reels (delay : ℚ) (u2 : Nat → Nat → ℚ) (steps2 : Nat → Nat → FetchStep)
    (maxR : Nat) (h : History) (fs : FS) (username : String)
    (min_size min_duration : Option ℚ) (lim : Option Nat) (posts : List Post) :
    BatchResult :=
  let dir := "downloads/instagram/" ++ username
  let fs0 := FS.addDir fs dir
  let st := analyzeLoop fs0 username min_size min_duration lim posts ⟨h, [], 0, 0⟩
  if st.eligible.length == 0 then ⟨st.hist, fs0, 0, [], st.already, st.skipped, none⟩
  else
    let d := downloadPhase delay u2 steps2 dir maxR st.eligible 0 st.hist fs0 0 []
    ⟨d.1, d.2.1, d.2.2.1, d.2.2.2, st.already, st.skipped, none⟩

/-- Result of one `download_reel` run: `exit` is the process exit demanded by
`sys.exit`, `invoked` whether `_retry_download` ran. -/
structure ReelSingleResult where
  hist : History
  fs : FS
  invoked : Bool
  exit : Option Nat
deriving DecidableEq

/-- `download_reel(url)`: dedupe check, then `_retry_download` into
`downloads/instagram`; exhausted retries raise and are caught by
`sys.exit(1)`. -/
def download_reel (delay : ℚ) (u : Nat → ℚ) (steps : Nat → FetchStep) (maxR : Nat)
    (h : History) (fs : FS) (post : Post) : ReelSingleResult :=
  let dir := "downloads/instagram"
  let fs0 := FS.addDir fs dir
  let d := is_already_downloaded h fs0 post.owner post.shortcode
  if d.found then ⟨d.hist, fs0, false, none⟩
  else
    let r := retryGo delay u steps post dir 0 maxR d.hist fs0 0
    if r.ok then ⟨r.hist, r.fs, true, none⟩
    else ⟨r.hist, r.fs, true, some 1⟩

end ReelsDownloader

/-- Outcome oracle for the fetch part of `download_single_video`: an
exception while fetching/parsing the page, or a completed transfer with the
given chunk sizes. -/
inductive TikStep where
  | pageErr : TikStep
  | transfer : List Nat → TikStep
deriving DecidableEq

/-- `{username}_{timestamp}_{video_id}.mp4`. -/
def tikFilename (username date vid : String) : String :=
  username ++ "_" ++ date ++ "_" ++ vid ++ ".mp4"

/-- The TikTok sidecar `.txt` of the same stem. -/
def tikMetaFilename (username date vid : String) : String :=
  username ++ "_" ++ date ++ "_" ++ vid ++ ".txt"

namespace TikTokDownloader

/-- TikTok `_is_already_downloaded`: history membership only, no disk check. -/
def is_already_downloaded (h : History) (username vid : String) : Bool :=
  match histGet h username with
  | some l => decide (vid ∈ l)
  | none => false

/-- TikTok `_mark_as_downloaded` (same body as the Instagram one). -/
def mark_as_downloaded (h : History) (username vid : String) : History × Bool :=
  let h1 := match histGet h username with
    | none => histSet h username []
    | some _ => h
  if recorded h1 username vid then (h1, false)
  else (histSet h1 username (((histGet h1 username).getD []) ++ [vid]), true)

/-- Result of one `download_single_video` call. -/
structure TikSingleResult where
  ok : Bool
  hist : History
  fs : FS
  invoked : Bool
deriving DecidableEq

/-- `download_single_video(url)`: dedupe check, transfer into
`downloads/tiktok/<username>`, delete-and-fail on a zero-byte file, else
sidecar plus history mark. Failures return `False`; nothing exits. -/
def download_single_video (h : History) (fs : FS) (username vid date : String)
    (step : TikStep) : TikSingleResult :=
  let dir := "downloads/tiktok/" ++ username
  let fs0 := FS.addDir fs dir
  if is_already_downloaded h username vid then ⟨true, h, fs0, false⟩
  else
    match step with
    | TikStep.pageErr => ⟨false, h, fs0, true⟩
    | TikStep.transfer chunks =>
      let fname := tikFilename username date vid
      let fs1 := FS.addFile fs0 dir fname chunks.sum
      if chunks.sum == 0 then ⟨false, h, FS.removeFile fs1 dir fname, true⟩
      else
        let fs2 := FS.addFile fs1 dir (tikMetaFilename username date vid) 1
        ⟨true, (mark_as_downloaded h username vid).1, fs2, true⟩

/-- `download_user_videos`: call `download_single_video` per item (each item
given as username, video id, timestamp, fetch oracle), counting successes and
logging whether each item's fetch step was actually invoked. -/
def download_user_videos : History → FS → List (String × String × String × TikStep) →
    History × FS × Nat × List (String × String × Bool)
  | h, fs, [] => (h, fs, 0, [])
  | h, fs, (u, v, d, s) :: rest =>
    let r := download_single_video h fs u v d s
    let t := download_user_videos r.hist r.fs rest
    (t.1, t.2.1, (if r.ok then 1 else 0) + t.2.2.1, (u, v, r.invoked) :: t.2.2.2)

end TikTokDownloader

/-- What the process reports after `main` ran a TikTok single-video request:
`download_single_video`'s boolean result is discarded and `main` returns
normally, so the process exit code is 0 (`exit = none`). -/
structure MainResult where
  ok : Bool
  hist : History
  fs : FS
  exit : Option Nat
deriving DecidableEq

/-- The `main` dispatch for a single TikTok video URL. -/
def main_tiktok_single_video (h : History) (fs : FS) (username vid date : String)
    (step : TikStep) : MainResult :=
  let r := TikTokDownloader.download_single_video h fs username vid date step
  ⟨r.ok, r.hist, r.fs, none⟩

/-- A concrete history with one recorded item, for concrete evaluations. -/
def wHist : History := [("alice", ["X1"])]

/-- An empty filesystem. -/
def wFS : FS := ⟨[], []⟩

/-- A concrete video post. -/
def wPost : Post := ⟨"alice", "X1", "2024", true, none, none⟩

/-- A filesystem holding a media file inside the directory the batch
downloader writes into (`downloads/instagram/alice`). -/
def wFS2 : FS :=
  ⟨["downloads/instagram/alice"],
   [("downloads/instagram/alice", "alice_2024_X1.mp4", 5)]⟩

/-- A filesystem holding a media file inside `downloads/alice`, the directory
the reconciliation check actually probes. -/
def wFS3 : FS :=
  ⟨["downloads/alice"], [("downloads/alice", "alice_2024_X1.mp4", 5)]⟩

/-! ## Basic lemmas about the history mapping -/

theorem histGet_histSet_self (h : History) (u : String) (vs : List String) :
    histGet (histSet h u vs) u = some vs := by
  induction h with
  | nil => simp [histGet, histSet]
  | cons kv rest ih =>
    obtain ⟨k, v⟩ := kv
    by_cases hk : k = u <;> simp [histGet, histSet, hk, ih]

theorem histGet_histSet_ne (h : History) (u w : String) (vs : List String)
    (hne : w ≠ u) : histGet (histSet h u vs) w = histGet h w := by
  induction h with
  | nil =>
    have huw : ¬u = w := fun he => hne he.symm
    simp [histGet, histSet, huw]
  | cons kv rest ih =>
    obtain ⟨k, v⟩ := kv
    by_cases hk : k = u
    · subst hk
      have hkw : ¬k = w := fun he => hne he.symm
      simp [histGet, histSet, hkw]
    · simp [histGet, histSet, hk, ih]

theorem recorded_iff (h : History) (u v : String) :
    recorded h u v = true ↔ v ∈ (histGet h u).getD [] := by
  unfold recorded
  cases hg : histGet h u <;> simp

theorem recorded_of_none (h : History) (u v : String) (hg : histGet h u = none) :
    recorded h u v = false := by
  unfold recorded
  rw [hg]

theorem recorded_histSet_append (h : History) (a b u v : String)
    (hr : recorded h u v = true) :
    recorded (histSet h a (((histGet h a).getD []) ++ [b])) u v = true := by
  by_cases hua : u = a
  · subst hua
    rw [recorded_iff] at hr ⊢
    rw [histGet_histSet_self]
    simp only [Option.getD_some, List.mem_append]
    exact Or.inl hr
  · rw [recorded_iff] at hr ⊢
    rw [histGet_histSet_ne _ _ _ _ hua]
    exact hr

theorem bool_eq_false {b : Bool} (h : ¬b = true) : b = false := by
  cases b
  · rfl
  · exact absurd rfl h

/-! ## Lemmas about `_mark_as_downloaded` -/

theorem tik_mark_eq_reels :
    TikTokDownloader.mark_as_downloaded = ReelsDownloader.mark_as_downloaded := rfl

theorem mark_of_recorded (h : History) (u v : String) (hr : recorded h u v = true) :
    ReelsDownloader.mark_as_downloaded h u v = (h, false) := by
  unfold ReelsDownloader.mark_as_downloaded
  cases hg : histGet h u with
  | none =>
    rw [recorded_of_none h u v hg] at hr
    cases hr
  | some l => simp [hg, hr]

theorem recorded_mark_self (h : History) (u v : String) :
    recorded (ReelsDownloader.mark_as_downloaded h u v).1 u v = true := by
  unfold ReelsDownloader.mark_as_downloaded
  cases hg : histGet h u with
  | none =>
    have h1 : histGet (histSet h u []) u = some [] := histGet_histSet_self h u []
    have hrec : recorded (histSet h u []) u v = false := by
      unfold recorded
      rw [h1]
      simp
    simp only [hg, hrec, Bool.false_eq_true, if_false]
    rw [recorded_iff, histGet_histSet_self]
    simp
  | some l =>
    simp only [hg]
    by_cases hrec : recorded h u v = true
    · simp [hrec]
    · have hrecf := bool_eq_false hrec
      simp only [hrecf, Bool.false_eq_true, if_false]
      rw [recorded_iff, histGet_histSet_self]
      simp

theorem recorded_mark_mono (h : History) (a b u v : String)
    (hr : recorded h u v = true) :
    recorded (ReelsDownloader.mark_as_downloaded h a b).1 u v = true := by
  unfold ReelsDownloader.mark_as_downloaded
  cases hg : histGet h a with
  | none =>
    have hua : u ≠ a := by
      intro he
      subst he
      rw [recorded_of_none h u v hg] at hr
      cases hr
    have hkeep : recorded (histSet h a []) u v = true := by
      rw [recorded_iff] at hr ⊢
      rw [histGet_histSet_ne h a u [] hua]
      exact hr
    have hrec : recorded (histSet h a []) a b = false := by
      unfold recorded
      rw [histGet_histSet_self]
      simp
    simp only [hg, hrec, Bool.false_eq_true, if_false]
    exact recorded_histSet_append (histSet h a []) a b u v hkeep
  | some l =>
    simp only [hg]
    by_cases hab : recorded h a b = true
    · simp [hab, hr]
    · have habf := bool_eq_false hab
      simp only [habf, Bool.false_eq_true, if_false]
      rw [← hg]
      exact recorded_histSet_append h a b u v hr

theorem nodup_append_singleton {l : List String} {v : String} (hl : l.Nodup)
    (hv : v ∉ l) : (l ++ [v]).Nodup := by
  simp [List.nodup_append, hl, hv]

theorem histNodup_histSet (h : History) (u : String) (vs : List String)
    (hn : histNodup h) (hvs : vs.Nodup) : histNodup (histSet h u vs) := by
  intro w
  by_cases hw : w = u
  · subst hw
    rw [histGet_histSet_self]
    simpa
  · rw [histGet_histSet_ne h u w vs hw]
    exact hn w

theorem histNodup_append_step (h : History) (u v : String) (hn : histNodup h)
    (hnv : recorded h u v = false) :
    histNodup (histSet h u (((histGet h u).getD []) ++ [v])) := by
  apply histNodup_histSet h u _ hn
  have hmem : ¬recorded h u v = true := by simp [hnv]
  rw [recorded_iff] at hmem
  exact nodup_append_singleton (hn u) hmem

theorem histNodup_mark (h : History) (u v : String) (hn : histNodup h) :
    histNodup (ReelsDownloader.mark_as_downloaded h u v).1 := by
  unfold ReelsDownloader.mark_as_downloaded
  cases hg : histGet h u with
  | none =>
    have h1n : histNodup (histSet h u []) := histNodup_histSet h u [] hn List.nodup_nil
    have hrec : recorded (histSet h u []) u v = false := by
      unfold recorded
      rw [histGet_histSet_self]
      simp
    simp only [hg, hrec, Bool.false_eq_true, if_false]
    exact histNodup_append_step _ u v h1n hrec
  | some l =>
    simp only [hg]
    by_cases hvv : recorded h u v = true
    · simp only [hvv, if_true]
      exact hn
    · have hvf := bool_eq_false hvv
      simp only [hvf, Bool.false_eq_true, if_false]
      rw [← hg]
      exact histNodup_append_step h u v hn hvf

/-! ## Lemmas about `_is_already_downloaded` -/

theorem is_already_of_recorded (h : History) (fs : FS) (u v : String)
    (hr : recorded h u v = true) :
    ReelsDownloader.is_already_downloaded h fs u v = ⟨true, h, false⟩ := by
  unfold ReelsDownloader.is_already_downloaded
  simp [hr]

theorem recorded_is_already_mono (h : History) (fs : FS) (a b u v : String)
    (hr : recorded h u v = true) :
    recorded (ReelsDownloader.is_already_downloaded h fs a b).hist u v = true := by
  unfold ReelsDownloader.is_already_downloaded
  by_cases hab : recorded h a b = true
  · simp [hab, hr]
  · have habf := bool_eq_false hab
    by_cases hde : FS.dirExists fs ("downloads/" ++ a) = true
    · by_cases hemp :
        (fs.files.filter (fun p => p.1 == ("downloads/" ++ a) && hasSubStr p.2.1 b)).isEmpty = true
      · simp [habf, hde, hemp, hr]
      · have hempf := bool_eq_false hemp
        cases hg : histGet h a with
        | none =>
          have hua : u ≠ a := by
            intro he
            subst he
            rw [recorded_of_none h u v hg] at hr
            cases hr
          have hkeep : recorded (histSet h a []) u v = true := by
            rw [recorded_iff] at hr ⊢
            rw [histGet_histSet_ne h a u [] hua]
            exact hr
          have hrec2 : recorded (histSet h a []) a b = false := by
            unfold recorded
            rw [histGet_histSet_self]
            simp
          simp [habf, hde, hempf, hg, hrec2]
          exact recorded_histSet_append (histSet h a []) a b u v hkeep
        | some l =>
          simp [habf, hde, hempf, hg]
          have hstep := recorded_histSet_append h a b u v hr
          rw [hg] at hstep
          simpa using hstep
    · have hdef := bool_eq_false hde
      simp [habf, hdef, hr]

theorem histNodup_is_already (h : History) (fs : FS) (a b : String) (hn : histNodup h) :
    histNodup (ReelsDownloader.is_already_downloaded h fs a b).hist := by
  unfold ReelsDownloader.is_already_downloaded
  by_cases hab : recorded h a b = true
  · simp [hab]
    exact hn
  · have habf := bool_eq_false hab
    by_cases hde : FS.dirExists fs ("downloads/" ++ a) = true
    · by_cases hemp :
        (fs.files.filter (fun p => p.1 == ("downloads/" ++ a) && hasSubStr p.2.1 b)).isEmpty = true
      · simp [habf, hde, hemp]
        exact hn
      · have hempf := bool_eq_false hemp
        cases hg : histGet h a with
        | none =>
          have h1n : histNodup (histSet h a []) := histNodup_histSet h a [] hn List.nodup_nil
          have hrec2 : recorded (histSet h a []) a b = false := by
            unfold recorded
            rw [histGet_histSet_self]
            simp
          simp [habf, hde, hempf, hg, hrec2]
          exact histNodup_append_step (histSet h a []) a b h1n hrec2
        | some l =>
          simp [habf, hde, hempf, hg]
          have hstep := histNodup_append_step h a b hn habf
          rw [hg] at hstep
          simpa using hstep
    · have hdef := bool_eq_false hde
      simp [habf, hdef]
      exact hn

/-! ## Lemmas about `_retry_download` -/

theorem retryGo_resolutions_le (delay : ℚ) (u : Nat → ℚ) (steps : Nat → FetchStep)
    (post : Post) (dir : String) :
    ∀ (k i : Nat) (h : History) (fs : FS) (res : Nat),
      (ReelsDownloader.retryGo delay u steps post dir i k h fs res).resolutions ≤ res + k := by
  intro k
  induction k with
  | zero =>
    intro i h fs res
    simp [ReelsDownloader.retryGo]
  | succ n ih =>
    intro i h fs res
    unfold ReelsDownloader.retryGo
    cases hs : steps i with
    | raiseErr =>
      simp only [hs]
      have hle := ih (i + 1) h fs (res + 1)
      omega
    | noUrl =>
      simp [hs]
    | transfer chunks =>
      simp [hs]

theorem retryGo_fail_hist (delay : ℚ) (u : Nat → ℚ) (steps : Nat → FetchStep)
    (post : Post) (dir : String) :
    ∀ (k i : Nat) (h : History) (fs : FS) (res : Nat),
      (ReelsDownloader.retryGo delay u steps post dir i k h fs res).ok = false →
      (ReelsDownloader.retryGo delay u steps post dir i k h fs res).hist = h := by
  intro k
  induction k with
  | zero =>
    intro i h fs res _
    simp [ReelsDownloader.retryGo]
  | succ n ih =>
    intro i h fs res hok
    unfold ReelsDownloader.retryGo at hok ⊢
    cases hs : steps i with
    | raiseErr =>
      simp only [hs] at hok ⊢
      exact ih (i + 1) h fs (res + 1) hok
    | noUrl =>
      simp [hs]
    | transfer chunks =>
      simp [hs] at hok

theorem retryGo_all_raise (delay : ℚ) (u : Nat → ℚ) (steps : Nat → FetchStep)
    (post : Post) (dir : String) (hall : ∀ i, steps i = FetchStep.raiseErr) :
    ∀ (k i : Nat) (h : History) (fs : FS) (res : Nat),
      ReelsDownloader.retryGo delay u steps post dir i k h fs res =
        ⟨false, h, fs, res + k,
          (List.range k).map (fun j => ReelsDownloader.get_random_delay delay (u (i + j)))⟩ := by
  intro k
  induction k with
  | zero =>
    intro i h fs res
    simp [ReelsDownloader.retryGo]
  | succ n ih =>
    intro i h fs res
    unfold ReelsDownloader.retryGo
    rw [hall i]
    simp only [ih (i + 1) h fs (res + 1)]
    have hres : res + 1 + n = res + (n + 1) := by omega
    have hmap : ReelsDownloader.get_random_delay delay (u i) ::
        (List.range n).map (fun j => ReelsDownloader.get_random_delay delay (u (i + 1 + j))) =
        (List.range (n + 1)).map (fun j => ReelsDownloader.get_random_delay delay (u (i + j))) := by
      rw [List.range_succ_eq_map, List.map_cons, List.map_map]
      have htail : (List.range n).map
            (fun j => ReelsDownloader.get_random_delay delay (u (i + 1 + j))) =
          (List.range n).map
            ((fun j => ReelsDownloader.get_random_delay delay (u (i + j))) ∘ Nat.succ) := by
        apply List.map_congr_left
        intro a ha
        show ReelsDownloader.get_random_delay delay (u (i + 1 + a)) =
          ReelsDownloader.get_random_delay delay (u (i + (a + 1)))
        have he : i + 1 + a = i + (a + 1) := by omega
        rw [he]
      rw [htail]
      simp
    rw [hres, hmap]

theorem retryGo_sleeps_mem (delay : ℚ) (u : Nat → ℚ) (steps : Nat → FetchStep)
    (post : Post) (dir : String) :
    ∀ (k i : Nat) (h : History) (fs : FS) (res : Nat) (s : ℚ),
      s ∈ (ReelsDownloader.retryGo delay u steps post dir i k h fs res).sleeps →
      ∃ j, s = ReelsDownloader.get_random_delay delay (u j) := by
  intro k
  induction k with
  | zero =>
    intro i h fs res s hs
    simp [ReelsDownloader.retryGo] at hs
  | succ n ih =>
    intro i h fs res s hs
    unfold ReelsDownloader.retryGo at hs
    cases hstep : steps i with
    | raiseErr =>
      rw [hstep] at hs
      simp only [List.mem_cons] at hs
      rcases hs with hs | hs
      · exact ⟨i, hs⟩
      · exact ih (i + 1) h fs (res + 1) s hs
    | noUrl =>
      rw [hstep] at hs
      simp at hs
    | transfer chunks =>
      rw [hstep] at hs
      simp at hs

/-! ## Lemmas about the batch orchestrator -/

theorem downloadPhase_fetched (delay : ℚ) (u2 : Nat → Nat → ℚ)
    (steps2 : Nat → Nat → FetchStep) (dir : String) (maxR : Nat) :
    ∀ (posts : List Post) (idx : Nat) (h : History) (fs : FS) (succ : Nat)
      (fetched : List String),
      (ReelsDownloader.downloadPhase delay u2 steps2 dir maxR posts idx h fs succ
          fetched).2.2.2 = fetched ++ posts.map Post.shortcode := by
  intro posts
  induction posts with
  | nil =>
    intro idx h fs succ fetched
    simp [ReelsDownloader.downloadPhase]
  | cons p rest ih =>
    intro idx h fs succ fetched
    unfold ReelsDownloader.downloadPhase
    rw [ih]
    simp

theorem analyzeLoop_no_recorded (fs : FS) (username : String) (ms md : Option ℚ)
    (lim : Option Nat) (sc : String) :
    ∀ (posts : List Post) (st : ReelsDownloader.Analysis),
      recorded st.hist username sc = true →
      (∀ p ∈ st.eligible, p.shortcode ≠ sc) →
      recorded (ReelsDownloader.analyzeLoop fs username ms md lim posts st).hist
          username sc = true ∧
      ∀ p ∈ (ReelsDownloader.analyzeLoop fs username ms md lim posts st).eligible,
        p.shortcode ≠ sc := by
  intro posts
  induction posts with
  | nil =>
    intro st h1 h2
    simp only [ReelsDownloader.analyzeLoop]
    exact ⟨h1, h2⟩
  | cons p rest ih =>
    intro st h1 h2
    unfold ReelsDownloader.analyzeLoop
    cases hv : p.is_video with
    | false =>
      simp only [hv, Bool.not_false, if_true]
      exact ih st h1 h2
    | true =>
      simp only [hv, Bool.not_true, Bool.false_eq_true, if_false]
      by_cases hf :
          (ReelsDownloader.is_already_downloaded st.hist fs username p.shortcode).found = true
      · simp only [hf, if_true]
        refine ih _ ?_ ?_
        · exact recorded_is_already_mono st.hist fs username p.shortcode username sc h1
        · exact h2
      · have hff := bool_eq_false hf
        have hpsc : p.shortcode ≠ sc := by
          intro he
          rw [he] at hf
          rw [is_already_of_recorded st.hist fs username sc h1] at hf
          exact hf rfl
        have hmono :
            recorded (ReelsDownloader.is_already_downloaded st.hist fs username
              p.shortcode).hist username sc = true :=
          recorded_is_already_mono st.hist fs username p.shortcode username sc h1
        have helig : ∀ q ∈ st.eligible ++ [p], q.shortcode ≠ sc := by
          intro q hq
          rcases List.mem_append.mp hq with hq | hq
          · exact h2 q hq
          · rw [List.mem_singleton.mp hq]
            exact hpsc
        simp only [hff, Bool.false_eq_true, if_false]
        by_cases hm : ReelsDownloader.meets_criteria p ms md = true
        · simp only [hm, if_true]
          by_cases hl : ReelsDownloader.limitHit lim (st.eligible ++ [p]).length = true
          · simp only [hl, if_true]
            exact ⟨hmono, helig⟩
          · have hlf := bool_eq_false hl
            simp only [hlf, Bool.false_eq_true, if_false]
            exact ih _ hmono helig
        · have hmf := bool_eq_false hm
          simp only [hmf, Bool.false_eq_true, if_false]
          exact ih _ hmono h2

/-! ## Lemmas about the TikTok downloader -/

theorem tik_is_already_eq_recorded (h : History) (u v : String) :
    TikTokDownloader.is_already_downloaded h u v = recorded h u v := rfl

theorem recorded_tik_single_mono (h : History) (fs : FS) (username vid date : String)
    (step : TikStep) (u v : String) (hr : recorded h u v = true) :
    recorded (TikTokDownloader.download_single_video h fs username vid date step).hist
      u v = true := by
  unfold TikTokDownloader.download_single_video
  by_cases hd : TikTokDownloader.is_already_downloaded h username vid = true
  · simp [hd, hr]
  · have hdf := bool_eq_false hd
    cases step with
    | pageErr => simp [hdf, hr]
    | transfer chunks =>
      by_cases hz : (chunks.sum == 0) = true
      · simp [hdf, hz, hr]
      · have hzf := bool_eq_false hz
        simp only [hdf, Bool.false_eq_true, if_false, hzf]
        rw [tik_mark_eq_reels]
        exact recorded_mark_mono h username vid u v hr

theorem tik_batch_recorded_skip (u v : String) :
    ∀ (items : List (String × String × String × TikStep)) (h : History) (fs : FS),
      recorded h u v = true →
      ∀ e ∈ (TikTokDownloader.download_user_videos h fs items).2.2.2,
        e.1 = u → e.2.1 = v → e.2.2 = false := by
  intro items
  induction items with
  | nil =>
    intro h fs hr e he
    simp [TikTokDownloader.download_user_videos] at he
  | cons it rest ih =>
    intro h fs hr e he
    obtain ⟨iu, iv, idate, istep⟩ := it
    unfold TikTokDownloader.download_user_videos at he
    simp only [List.mem_cons] at he
    rcases he with he | he
    · intro h1 h2
      subst he
      simp only at h1 h2
      subst h1
      subst h2
      have hrec : TikTokDownloader.is_already_downloaded h iu iv = true := by
        rw [tik_is_already_eq_recorded]
        exact hr
      simp [TikTokDownloader.download_single_video, hrec]
    · exact ih _ _ (recorded_tik_single_mono h fs iu iv idate istep u v hr) e he

/-! ## String and filesystem helper lemmas -/

theorem string_append_mp4_ne_txt (s : String) : s ++ ".mp4" ≠ s ++ ".txt" := by
  intro he
  have hd := congrArg String.data he
  simp only [String.data_append] at hd
  have ht := List.append_cancel_left hd
  simp at ht

theorem media_ne_meta (p : Post) : mediaFilename p ≠ metaFilename p :=
  string_append_mp4_ne_txt (p.owner ++ "_" ++ p.date ++ "_" ++ p.shortcode)

theorem removeFile_not_mem (fs : FS) (d name : String) (size : Nat) :
    (d, name, size) ∉ (FS.removeFile fs d name).files := by
  unfold FS.removeFile
  simp [List.mem_filter]

/-! ## Repair branch of `_is_already_downloaded`, and the batch run shape -/

theorem is_already_repair (h : History) (fs : FS) (username shortcode : String)
    (habf : recorded h username shortcode = false)
    (hde : FS.dirExists fs ("downloads/" ++ username) = true)
    (hempf : (fs.files.filter (fun p => p.1 == ("downloads/" ++ username) &&
        hasSubStr p.2.1 shortcode)).isEmpty = false) :
    (ReelsDownloader.is_already_downloaded h fs username shortcode).found = true ∧
    recorded (ReelsDownloader.is_already_downloaded h fs username shortcode).hist
      username shortcode = true ∧
    (ReelsDownloader.is_already_downloaded h fs username shortcode).saved = true := by
  unfold ReelsDownloader.is_already_downloaded
  simp only [habf, Bool.false_eq_true, if_false, hde, if_true, hempf]
  cases hg : histGet h username with
  | none =>
    have hrec2 : recorded (histSet h username []) username shortcode = false := by
      unfold recorded
      rw [histGet_histSet_self]
      simp
    simp only [hg, hrec2, Bool.false_eq_true, if_false]
    refine ⟨trivial, ?_, trivial⟩
    rw [recorded_iff, histGet_histSet_self]
    simp
  | some l =>
    simp only [hg, habf, Bool.false_eq_true, if_false]
    refine ⟨trivial, ?_, trivial⟩
    rw [recorded_iff, histGet_histSet_self]
    simp

theorem download_user_reels_spec (delay : ℚ) (u2 : Nat → Nat → ℚ)
    (steps2 : Nat → Nat → FetchStep) (maxR : Nat) (h : History) (fs : FS)
    (username : String) (ms md : Option ℚ) (lim : Option Nat) (posts : List Post) :
    (ReelsDownloader.download_user_reels delay u2 steps2 maxR h fs username ms md lim
        posts).fetched =
      (ReelsDownloader.analyzeLoop (FS.addDir fs ("downloads/instagram/" ++ username))
          username ms md lim posts ⟨h, [], 0, 0⟩).eligible.map Post.shortcode ∧
    (ReelsDownloader.download_user_reels delay u2 steps2 maxR h fs username ms md lim
        posts).exit = none := by
  unfold ReelsDownloader.download_user_reels
  by_cases hlen :
      ((ReelsDownloader.analyzeLoop (FS.addDir fs ("downloads/instagram/" ++ username))
        username ms md lim posts ⟨h, [], 0, 0⟩).eligible.length == 0) = true
  · have hnil :
        (ReelsDownloader.analyzeLoop (FS.addDir fs ("downloads/instagram/" ++ username))
          username ms md lim posts ⟨h, [], 0, 0⟩).eligible = [] := by
      have hlen0 :
          (ReelsDownloader.analyzeLoop (FS.addDir fs ("downloads/instagram/" ++ username))
            username ms md lim posts ⟨h, [], 0, 0⟩).eligible.length = 0 := by
        simpa using hlen
      exact List.length_eq_zero.mp hlen0
    simp [hlen, hnil]
  · have hlf := bool_eq_false hlen
    simp only [hlf, Bool.false_eq_true, if_false]
    refine ⟨?_, trivial⟩
    rw [downloadPhase_fetched]
    simp

/-! ## Claim theorems -/

/-- C1: for every account A and every itemId already recorded in the History
Store for A, a batch run (`download_user_reels`, `download_user_videos`) and
a single-item run (`download_reel`, `download_single_video`) never invoke the
download/transfer step for that itemId: the item is counted as already
downloaded and skipped. -/
theorem C1_recorded_items_never_fetched :
    (∀ (delay : ℚ) (u2 : Nat → Nat → ℚ) (steps2 : Nat → Nat → FetchStep) (maxR : Nat)
        (h : History) (fs : FS) (username : String) (ms md : Option ℚ)
        (lim : Option Nat) (posts : List Post) (sc : String),
        recorded h username sc = true →
        sc ∉ (ReelsDownloader.download_user_reels delay u2 steps2 maxR h fs username
            ms md lim posts).fetched) ∧
    (∀ (delay : ℚ) (u : Nat → ℚ) (steps : Nat → FetchStep) (maxR : Nat)
        (h : History) (fs : FS) (post : Post),
        recorded h post.owner post.shortcode = true →
        (ReelsDownloader.download_reel delay u steps maxR h fs post).invoked = false) ∧
    (∀ (h : History) (fs : FS) (username vid date : String) (step : TikStep),
        recorded h username vid = true →
        (TikTokDownloader.download_single_video h fs username vid date step).invoked =
          false) ∧
    (∀ (h : History) (fs : FS) (items : List (String × String × String × TikStep))
        (u v : String),
        recorded h u v = true →
        ∀ e ∈ (TikTokDownloader.download_user_videos h fs items).2.2.2,
          e.1 = u → e.2.1 = v → e.2.2 = false) := by
  refine ⟨?_, ?_, ?_, ?_⟩
  · intro delay u2 steps2 maxR h fs username ms md lim posts sc hr
    rw [(download_user_reels_spec delay u2 steps2 maxR h fs username ms md lim posts).1]
    intro hmem
    rw [List.mem_map] at hmem
    obtain ⟨p, hp, hps⟩ := hmem
    have hana := analyzeLoop_no_recorded (FS.addDir fs ("downloads/instagram/" ++ username))
      username ms md lim sc posts ⟨h, [], 0, 0⟩ hr (by simp)
    exact hana.2 p hp hps
  · intro delay u steps maxR h fs post hr
    have hd := is_already_of_recorded h (FS.addDir fs "downloads/instagram")
      post.owner post.shortcode hr
    simp [ReelsDownloader.download_reel, hd]
  · intro h fs username vid date step hr
    have hrec : TikTokDownloader.is_already_downloaded h username vid = true := by
      rw [tik_is_already_eq_recorded]
      exact hr
    simp [TikTokDownloader.download_single_video, hrec]
  · intro h fs items u v hr
    exact tik_batch_recorded_skip u v items h fs hr

/-- Witness for C1: with `X1` recorded for `alice`, the batch run over `alice`
never hands `X1` to the fetcher. -/
theorem C1_recorded_items_never_fetched_witness :
    "X1" ∉ (ReelsDownloader.download_user_reels 1 (fun _ _ => 0)
      (fun _ _ => FetchStep.raiseErr) 3 wHist wFS "alice" none none none
      [wPost]).fetched :=
  C1_recorded_items_never_fetched.1 1 (fun _ _ => 0) (fun _ _ => FetchStep.raiseErr) 3
    wHist wFS "alice" none none none [wPost] "X1" (by decide)

/-- C4: `_retry_download` performs at most `maxAttempts` attempts,
re-resolving the media location on every attempt (the resolution count equals
the number of attempts, at most `max_retries`); after exhausting all attempts
it returns failure and leaves the history unchanged (so the itemId stays
absent), and the batch run still hands every eligible item to the fetcher and
never exits. -/
theorem C4_retry_bounded :
    (∀ (delay : ℚ) (u : Nat → ℚ) (steps : Nat → FetchStep) (post : Post) (dir : String)
        (h : History) (fs : FS) (maxR : Nat),
        (ReelsDownloader.retry_download delay u steps post dir h fs maxR).resolutions ≤
          maxR) ∧
    (∀ (delay : ℚ) (u : Nat → ℚ) (steps : Nat → FetchStep) (post : Post) (dir : String)
        (h : History) (fs : FS) (maxR : Nat),
        (ReelsDownloader.retry_download delay u steps post dir h fs maxR).ok = false →
        (ReelsDownloader.retry_download delay u steps post dir h fs maxR).hist = h) ∧
    (∀ (delay : ℚ) (u : Nat → ℚ) (steps : Nat → FetchStep) (post : Post) (dir : String)
        (h : History) (fs : FS) (maxR : Nat),
        (∀ i, steps i = FetchStep.raiseErr) →
        (ReelsDownloader.retry_download delay u steps post dir h fs maxR).ok = false ∧
        (ReelsDownloader.retry_download delay u steps post dir h fs maxR).resolutions =
          maxR) ∧
    (∀ (delay : ℚ) (u2 : Nat → Nat → ℚ) (steps2 : Nat → Nat → FetchStep) (maxR : Nat)
        (h : History) (fs : FS) (username : String) (ms md : Option ℚ)
        (lim : Option Nat) (posts : List Post),
        (ReelsDownloader.download_user_reels delay u2 steps2 maxR h fs username ms md
            lim posts).fetched =
          (ReelsDownloader.analyzeLoop (FS.addDir fs ("downloads/instagram/" ++ username))
              username ms md lim posts ⟨h, [], 0, 0⟩).eligible.map Post.shortcode ∧
        (ReelsDownloader.download_user_reels delay u2 steps2 maxR h fs username ms md
            lim posts).exit = none) := by
  refine ⟨?_, ?_, ?_, ?_⟩
  · intro delay u steps post dir h fs maxR
    have := retryGo_resolutions_le delay u steps post dir maxR 0 h fs 0
    simpa [ReelsDownloader.retry_download] using this
  · intro delay u steps post dir h fs maxR hok
    exact retryGo_fail_hist delay u steps post dir maxR 0 h fs 0 hok
  · intro delay u steps post dir h fs maxR hall
    unfold ReelsDownloader.retry_download
    rw [retryGo_all_raise delay u steps post dir hall maxR 0 h fs 0]
    simp
  · intro delay u2 steps2 maxR h fs username ms md lim posts
    exact download_user_reels_spec delay u2 steps2 maxR h fs username ms md lim posts

/-- Witness for C4: three attempts that all raise give failure with exactly
three resolutions. -/
theorem C4_retry_bounded_witness :
    (ReelsDownloader.retry_download 1 (fun _ => 0) (fun _ => FetchStep.raiseErr) wPost
        "downloads/instagram" [] wFS 3).ok = false ∧
    (ReelsDownloader.retry_download 1 (fun _ => 0) (fun _ => FetchStep.raiseErr) wPost
        "downloads/instagram" [] wFS 3).resolutions = 3 :=
  C4_retry_bounded.2.2.1 1 (fun _ => 0) (fun _ => FetchStep.raiseErr) wPost
    "downloads/instagram" [] wFS 3 (fun _ => rfl)

/-- C2 counterexample: a media file whose name contains the itemId sits in the
directory the batch downloader writes into (`downloads/instagram/alice`), yet
`_is_already_downloaded` returns false and repairs nothing, because the
reconciliation glob probes `downloads/alice` instead. -/
theorem C2_reconciliation_counterexample :
    ("downloads/instagram/alice", "alice_2024_X1.mp4", 5) ∈ wFS2.files ∧
    hasSubStr "alice_2024_X1.mp4" "X1" = true ∧
    ReelsDownloader.is_already_downloaded [] wFS2 "alice" "X1" = ⟨false, [], false⟩ := by
  refine ⟨by decide, by decide, by decide⟩

/-- C2 (amended): the reconciliation applies to files under `downloads/<account>`
(the directory the glob probes, not the one the downloader writes into): a
matching file there makes `_is_already_downloaded` return true, repair the
record and persist it immediately; the TikTok `_is_already_downloaded`
consults only the history mapping and performs no disk reconciliation. -/
theorem C2_reconciliation_amended :
    (∀ (h : History) (fs : FS) (username shortcode name : String) (size : Nat),
        recorded h username shortcode = false →
        ("downloads/" ++ username, name, size) ∈ fs.files →
        hasSubStr name shortcode = true →
        (ReelsDownloader.is_already_downloaded h fs username shortcode).found = true ∧
        recorded (ReelsDownloader.is_already_downloaded h fs username shortcode).hist
          username shortcode = true ∧
        (ReelsDownloader.is_already_downloaded h fs username shortcode).saved = true) ∧
    (∀ (h : History) (username vid : String),
        TikTokDownloader.is_already_downloaded h username vid = recorded h username vid) := by
  constructor
  · intro h fs username shortcode name size habf hmem hsub
    have hde : FS.dirExists fs ("downloads/" ++ username) = true := by
      unfold FS.dirExists
      rw [Bool.or_eq_true]
      right
      rw [List.any_eq_true]
      exact ⟨_, hmem, by simp⟩
    have hmemf : ("downloads/" ++ username, name, size) ∈
        fs.files.filter (fun p => p.1 == ("downloads/" ++ username) &&
          hasSubStr p.2.1 shortcode) := by
      rw [List.mem_filter]
      exact ⟨hmem, by simp [hsub]⟩
    have hempf : (fs.files.filter (fun p => p.1 == ("downloads/" ++ username) &&
        hasSubStr p.2.1 shortcode)).isEmpty = false := by
      cases hie : (fs.files.filter (fun p => p.1 == ("downloads/" ++ username) &&
          hasSubStr p.2.1 shortcode)).isEmpty
      · rfl
      · rw [List.isEmpty_iff] at hie
        rw [hie] at hmemf
        cases hmemf
    exact is_already_repair h fs username shortcode habf hde hempf
  · intro h username vid
    exact tik_is_already_eq_recorded h username vid

/-- Witness for C2 (amended): a matching file in `downloads/alice` flips the
answer to true with an immediate repair and save. -/
theorem C2_reconciliation_amended_witness :
    (ReelsDownloader.is_already_downloaded [] wFS3 "alice" "X1").found = true ∧
    recorded (ReelsDownloader.is_already_downloaded [] wFS3 "alice" "X1").hist
      "alice" "X1" = true ∧
    (ReelsDownloader.is_already_downloaded [] wFS3 "alice" "X1").saved = true :=
  C2_reconciliation_amended.1 [] wFS3 "alice" "X1" "alice_2024_X1.mp4" 5 (by decide)
    (by decide) (by decide)

/-- C3 counterexample: in the Instagram path, a transfer that delivers zero
bytes is still treated as a success by `_retry_download`: the item is marked
downloaded and the zero-byte media file stays on disk. -/
theorem C3_zero_byte_counterexample :
    (ReelsDownloader.retry_download 1 (fun _ => 0) (fun _ => FetchStep.transfer []) wPost
        "downloads/instagram/alice" [] wFS 3).ok = true ∧
    recorded (ReelsDownloader.retry_download 1 (fun _ => 0)
        (fun _ => FetchStep.transfer []) wPost "downloads/instagram/alice" [] wFS 3).hist
      "alice" "X1" = true ∧
    ("downloads/instagram/alice", mediaFilename wPost, 0) ∈
      (ReelsDownloader.retry_download 1 (fun _ => 0) (fun _ => FetchStep.transfer []) wPost
        "downloads/instagram/alice" [] wFS 3).fs.files := by
  refine ⟨by decide, by decide, by decide⟩

/-- C3 (amended): only the TikTok path verifies the transfer: a zero-byte
TikTok download is deleted, never marked, and reported as failure; the
Instagram `_retry_download` performs no emptiness check, so any completed
transfer — zero-byte included — is marked downloaded. -/
theorem C3_zero_byte_amended :
    (∀ (h : History) (fs : FS) (username vid date : String) (chunks : List Nat),
        recorded h username vid = false → chunks.sum = 0 →
        (TikTokDownloader.download_single_video h fs username vid date
            (TikStep.transfer chunks)).ok = false ∧
        (TikTokDownloader.download_single_video h fs username vid date
            (TikStep.transfer chunks)).hist = h ∧
        ∀ size, ("downloads/tiktok/" ++ username, tikFilename username date vid, size) ∉
          (TikTokDownloader.download_single_video h fs username vid date
            (TikStep.transfer chunks)).fs.files) ∧
    (∀ (delay : ℚ) (u : Nat → ℚ) (post : Post) (dir : String) (h : History) (fs : FS)
        (maxR : Nat) (chunks : List Nat),
        0 < maxR →
        (ReelsDownloader.retry_download delay u (fun _ => FetchStep.transfer chunks) post
            dir h fs maxR).ok = true ∧
        recorded (ReelsDownloader.retry_download delay u (fun _ => FetchStep.transfer chunks)
            post dir h fs maxR).hist post.owner post.shortcode = true) := by
  constructor
  · intro h fs username vid date chunks hnr hz
    have hrec : TikTokDownloader.is_already_downloaded h username vid = false := by
      rw [tik_is_already_eq_recorded]
      exact hnr
    have hzb : (chunks.sum == 0) = true := by
      simp [hz]
    unfold TikTokDownloader.download_single_video
    simp only [hrec, Bool.false_eq_true, if_false, hzb, if_true]
    refine ⟨trivial, trivial, ?_⟩
    intro size
    exact removeFile_not_mem _ _ _ size
  · intro delay u post dir h fs maxR chunks hpos
    obtain ⟨n, rfl⟩ : ∃ n, maxR = n + 1 := ⟨maxR - 1, by omega⟩
    exact ⟨rfl, recorded_mark_self h post.owner post.shortcode⟩

/-- Witness for C3 (amended): a zero-byte TikTok transfer fails and leaves no
file behind. -/
theorem C3_zero_byte_amended_witness :
    (TikTokDownloader.download_single_video [] wFS "alice" "V1" "2024"
        (TikStep.transfer [])).ok = false ∧
    (TikTokDownloader.download_single_video [] wFS "alice" "V1" "2024"
        (TikStep.transfer [])).hist = [] :=
  ⟨(C3_zero_byte_amended.1 [] wFS "alice" "V1" "2024" [] (by decide) rfl).1,
   (C3_zero_byte_amended.1 [] wFS "alice" "V1" "2024" [] (by decide) rfl).2.1⟩

/-- C5 counterexample: with `delay = 3` (so `nextDelay` returns exactly 3) and
three raising attempts, the sleep between attempt 2 and attempt 3 is 3
seconds, not `nextDelay * 2 = 6`: there is no attempt-number multiplier. -/
theorem C5_backoff_counterexample :
    (ReelsDownloader.retry_download 3 (fun _ => 0) (fun _ => FetchStep.raiseErr) wPost
        "downloads/instagram" [] wFS 3).sleeps.get? 1 = some 3 ∧
    ReelsDownloader.get_random_delay 3 0 * 2 ≠ (3 : ℚ) := by
  constructor
  · unfold ReelsDownloader.retry_download
    rw [retryGo_all_raise 3 (fun _ => 0) (fun _ => FetchStep.raiseErr) wPost
      "downloads/instagram" (fun _ => rfl) 3 0 [] wFS 0]
    simp [List.range_succ, ReelsDownloader.get_random_delay]
  · norm_num [ReelsDownloader.get_random_delay]

/-- C5 (amended): between consecutive retry attempts the fetcher sleeps
`_get_random_delay()` — a jittered delay in `[delay, 3]` — with no dependence
on the attempt number: with all attempts raising, the slept delays are exactly
the raw `_get_random_delay` draws, one per attempt. -/
theorem C5_backoff_amended :
    (∀ (delay : ℚ) (u : Nat → ℚ) (steps : Nat → FetchStep) (post : Post) (dir : String)
        (h : History) (fs : FS) (maxR : Nat),
        1 ≤ delay → delay ≤ 3 →
        (∀ i, 0 ≤ u i ∧ u i ≤ max_additional_delay delay) →
        ∀ s ∈ (ReelsDownloader.retry_download delay u steps post dir h fs maxR).sleeps,
          delay ≤ s ∧ s ≤ 3) ∧
    (∀ (delay : ℚ) (u : Nat → ℚ) (post : Post) (dir : String) (h : History) (fs : FS)
        (maxR : Nat),
        (ReelsDownloader.retry_download delay u (fun _ => FetchStep.raiseErr) post dir h
            fs maxR).sleeps =
          (List.range maxR).map (fun i => ReelsDownloader.get_random_delay delay (u i))) := by
  constructor
  · intro delay u steps post dir h fs maxR h1 h3 hu s hs
    obtain ⟨j, rfl⟩ := retryGo_sleeps_mem delay u steps post dir maxR 0 h fs 0 s hs
    unfold ReelsDownloader.get_random_delay
    have huj := hu j
    have hmin : max_additional_delay delay ≤ 3 - delay := min_le_left _ _
    constructor
    · linarith [huj.1]
    · linarith [huj.2, hmin]
  · intro delay u post dir h fs maxR
    unfold ReelsDownloader.retry_download
    rw [retryGo_all_raise delay u (fun _ => FetchStep.raiseErr) post dir (fun _ => rfl)
      maxR 0 h fs 0]
    simp

/-- Witness for C5 (amended): with `delay = 2` and zero jitter, the retry
sleep `_get_random_delay 2 0` lies inside `[2, 3]`. -/
theorem C5_backoff_amended_witness :
    (2 : ℚ) ≤ ReelsDownloader.get_random_delay 2 0 ∧
    ReelsDownloader.get_random_delay 2 0 ≤ 3 := by
  have hb := C5_backoff_amended.1 2 (fun _ => 0) (fun _ => FetchStep.raiseErr) wPost
    "downloads/instagram" [] wFS 3 (by norm_num) (by norm_num)
    (fun i => ⟨le_refl 0, by norm_num [max_additional_delay]⟩)
  apply hb
  unfold ReelsDownloader.retry_download
  rw [retryGo_all_raise 2 (fun _ => 0) (fun _ => FetchStep.raiseErr) wPost
    "downloads/instagram" (fun _ => rfl) 3 0 [] wFS 0]
  simp [List.range_succ]

/-- C6: the Eligibility Filter admits a post iff (minSize unset or probed size
is at least minSize) and (minDuration unset or probed duration is at least
minDuration); in particular with `minSize = 30` a probed size of 29.9 is
rejected and exactly 30.0 admitted, size is evaluated before duration with a
short-circuit on size failure, and with no thresholds everything is admitted. -/
theorem C6_criteria_filter :
    (∀ (p : Post) (ms md : Option ℚ),
        ReelsDownloader.meets_criteria p ms md = true ↔
          ((∀ s, ms = some s → s ≤ ReelsDownloader.get_video_size_mb p) ∧
           (∀ d, md = some d → d ≤ ReelsDownloader.get_video_duration p))) ∧
    ReelsDownloader.meets_criteria ⟨"a", "s", "t", true, some (299 / 10), none⟩
      (some 30) none = false ∧
    ReelsDownloader.meets_criteria ⟨"a", "s", "t", true, some 30, none⟩
      (some 30) none = true ∧
    (∀ (p : Post) (ms : ℚ) (md : Option ℚ),
        (ReelsDownloader.meets_criteria_trace p (some ms) md).durationProbed =
          (!decide (ReelsDownloader.get_video_size_mb p < ms) && md.isSome)) ∧
    (∀ p : Post, ReelsDownloader.meets_criteria p none none = true) := by
  refine ⟨?_, ?_, ?_, ?_, ?_⟩
  · intro p ms md
    cases ms with
    | none =>
      cases md with
      | none =>
        simp [ReelsDownloader.meets_criteria, ReelsDownloader.meets_criteria_trace]
      | some d0 =>
        by_cases hd : ReelsDownloader.get_video_duration p < d0
        · simp [ReelsDownloader.meets_criteria, ReelsDownloader.meets_criteria_trace,
            hd, hd.not_le]
        · have hd' := le_of_not_lt hd
          simp [ReelsDownloader.meets_criteria, ReelsDownloader.meets_criteria_trace,
            hd, hd']
    | some s0 =>
      by_cases hs : ReelsDownloader.get_video_size_mb p < s0
      · cases md with
        | none =>
          simp [ReelsDownloader.meets_criteria, ReelsDownloader.meets_criteria_trace,
            hs, hs.not_le]
        | some d0 =>
          simp [ReelsDownloader.meets_criteria, ReelsDownloader.meets_criteria_trace,
            hs, hs.not_le]
      · have hs' := le_of_not_lt hs
        cases md with
        | none =>
          simp [ReelsDownloader.meets_criteria, ReelsDownloader.meets_criteria_trace,
            hs, hs']
        | some d0 =>
          by_cases hd : ReelsDownloader.get_video_duration p < d0
          · simp [ReelsDownloader.meets_criteria, ReelsDownloader.meets_criteria_trace,
              hs, hs', hd, hd.not_le]
          · have hd' := le_of_not_lt hd
            simp [ReelsDownloader.meets_criteria, ReelsDownloader.meets_criteria_trace,
              hs, hs', hd, hd']
  · have h299 : ReelsDownloader.get_video_size_mb
        ⟨"a", "s", "t", true, some (299 / 10), none⟩ < 30 := by
      norm_num [ReelsDownloader.get_video_size_mb]
    simp [ReelsDownloader.meets_criteria, ReelsDownloader.meets_criteria_trace, h299]
  · have h30 : ¬ReelsDownloader.get_video_size_mb
        ⟨"a", "s", "t", true, some 30, none⟩ < 30 := by
      norm_num [ReelsDownloader.get_video_size_mb]
    simp [ReelsDownloader.meets_criteria, ReelsDownloader.meets_criteria_trace, h30]
  · intro p ms md
    cases md with
    | none =>
      by_cases hs : ReelsDownloader.get_video_size_mb p < ms <;>
        simp [ReelsDownloader.meets_criteria_trace, hs]
    | some d0 =>
      by_cases hs : ReelsDownloader.get_video_size_mb p < ms
      · simp [ReelsDownloader.meets_criteria_trace, hs]
      · by_cases hd : ReelsDownloader.get_video_duration p < d0 <;>
          simp [ReelsDownloader.meets_criteria_trace, hs, hd]
  · intro p
    rfl

/-- Witness for C6: the concrete 29.9-vs-30 rejection, taken from the theorem
itself. -/
theorem C6_criteria_filter_witness :
    ReelsDownloader.meets_criteria ⟨"a", "s", "t", true, some (299 / 10), none⟩
      (some 30) none = false :=
  C6_criteria_filter.2.1

/-- C7 counterexample: with the configured threshold `minSize = 0` and a size
probe that raises (encoded as `sizeProbe = none`, which the code turns into
0), the filter admits the item instead of rejecting it. -/
theorem C7_probe_failure_counterexample :
    ReelsDownloader.meets_criteria ⟨"a", "s", "t", true, none, none⟩ (some 0) none =
      true := by
  simp [ReelsDownloader.meets_criteria, ReelsDownloader.meets_criteria_trace,
    ReelsDownloader.get_video_size_mb]

/-- C7 (amended): a probe failure is converted to the value 0 inside the
filter (no exception escapes), so the item is rejected whenever the
corresponding configured threshold is positive — but admitted when the
threshold is 0 or negative. -/
theorem C7_probe_failure_amended :
    (∀ (p : Post) (ms : ℚ) (md : Option ℚ),
        p.sizeProbe = none → 0 < ms →
        ReelsDownloader.meets_criteria p (some ms) md = false) ∧
    (∀ (p : Post) (md : ℚ),
        p.durationProbe = none → 0 < md →
        ReelsDownloader.meets_criteria p none (some md) = false) := by
  constructor
  · intro p ms md hprobe hms
    have hsz : ReelsDownloader.get_video_size_mb p = 0 := by
      unfold ReelsDownloader.get_video_size_mb
      rw [hprobe]
    have hlt : ReelsDownloader.get_video_size_mb p < ms := by
      rw [hsz]
      exact hms
    simp [ReelsDownloader.meets_criteria, ReelsDownloader.meets_criteria_trace, hlt]
  · intro p md hprobe hmd
    have hdur : ReelsDownloader.get_video_duration p = 0 := by
      unfold ReelsDownloader.get_video_duration
      rw [hprobe]
    have hlt : ReelsDownloader.get_video_duration p < md := by
      rw [hdur]
      exact hmd
    simp [ReelsDownloader.meets_criteria, ReelsDownloader.meets_criteria_trace, hlt]

/-- Witness for C7 (amended): a failed size probe with `minSize = 30` is
rejected. -/
theorem C7_probe_failure_amended_witness :
    ReelsDownloader.meets_criteria ⟨"a", "s", "t", true, none, none⟩ (some 30) none =
      false :=
  C7_probe_failure_amended.1 ⟨"a", "s", "t", true, none, none⟩ 30 none rfl (by norm_num)

/-- C8 counterexample: `base = 3.005` lies outside `[1, 3]`, yet no warning is
emitted at instantiation, because the adjustment `0.005` is within the `0.01`
tolerance of the warning check. -/
theorem C8_delay_counterexample :
    (3 : ℚ) < 601 / 200 ∧ (downloaderInit (601 / 200)).warned = false := by
  constructor
  · norm_num
  · have hclamp : clamp_delay (601 / 200) = 3 := by
      unfold clamp_delay
      rw [min_eq_left (by norm_num : (3 : ℚ) ≤ 601 / 200)]
      rw [max_eq_right (by norm_num : (1 : ℚ) ≤ 3)]
    unfold downloaderInit
    simp only [hclamp]
    rw [decide_eq_false_iff_not]
    rw [not_lt]
    rw [abs_of_nonneg (by norm_num : (0 : ℚ) ≤ 601 / 200 - 3)]
    norm_num

/-- C8 (amended): for base in `[1, 3]` the clamped delay is base itself and
every jittered call returns a value in `[base, 3]`; for any base the clamped
value in `[1, 3]` is used; the one-time instantiation warning is emitted
exactly when the adjustment exceeds 0.01 (so an out-of-range base within 0.01
of its clamp gets no warning). -/
theorem C8_delay_amended :
    (∀ base : ℚ, 1 ≤ base → base ≤ 3 → (downloaderInit base).delay = base) ∧
    (∀ base : ℚ, 1 ≤ (downloaderInit base).delay ∧ (downloaderInit base).delay ≤ 3 ∧
        (downloaderInit base).delay = clamp_delay base) ∧
    (∀ (base u : ℚ), 0 ≤ u → u ≤ max_additional_delay (clamp_delay base) →
        clamp_delay base ≤ ReelsDownloader.get_random_delay (clamp_delay base) u ∧
        ReelsDownloader.get_random_delay (clamp_delay base) u ≤ 3) ∧
    (∀ base : ℚ, (downloaderInit base).warned =
        decide ((1 : ℚ) / 100 < |base - clamp_delay base|)) := by
  refine ⟨?_, ?_, ?_, ?_⟩
  · intro base h1 h3
    unfold downloaderInit clamp_delay
    simp [min_eq_right h3, max_eq_right h1]
  · intro base
    refine ⟨?_, ?_, rfl⟩
    · exact le_max_left 1 (min 3 base)
    · exact max_le (by norm_num) (min_le_left 3 base)
  · intro base u hu0 humax
    have hmin : max_additional_delay (clamp_delay base) ≤ 3 - clamp_delay base :=
      min_le_left _ _
    unfold ReelsDownloader.get_random_delay
    constructor
    · linarith
    · linarith
  · intro base
    rfl

/-- Witness for C8 (amended): base 2 is kept as-is and a zero-jitter call
returns a value in `[2, 3]`. -/
theorem C8_delay_amended_witness :
    (downloaderInit 2).delay = 2 ∧
    (clamp_delay 2 ≤ ReelsDownloader.get_random_delay (clamp_delay 2) 0 ∧
      ReelsDownloader.get_random_delay (clamp_delay 2) 0 ≤ 3) :=
  ⟨C8_delay_amended.1 2 (by norm_num) (by norm_num),
   C8_delay_amended.2.2.1 2 0 le_rfl (by norm_num [max_additional_delay, clamp_delay])⟩

/-- C9 counterexample: a failing single TikTok video request returns False,
which `main` ignores, so the process exits 0 — not the non-zero exit the
claim requires for single-item fatal failures. -/
theorem C9_exit_code_counterexample :
    (main_tiktok_single_video [] wFS "alice" "V1" "2024" TikStep.pageErr).ok = false ∧
    (main_tiktok_single_video [] wFS "alice" "V1" "2024" TikStep.pageErr).exit = none :=
  ⟨rfl, rfl⟩

/-- C9 (amended): the Instagram single-reel path exits with code 1 when the
fetch exhausts its retries; the TikTok single-video path never requests a
non-zero exit regardless of outcome; and the Instagram batch run never
requests an exit, however many individual items fail. -/
theorem C9_exit_codes_amended :
    (∀ (delay : ℚ) (u : Nat → ℚ) (steps : Nat → FetchStep) (maxR : Nat) (h : History)
        (fs : FS) (post : Post),
        (ReelsDownloader.is_already_downloaded h (FS.addDir fs "downloads/instagram")
            post.owner post.shortcode).found = false →
        (∀ i, steps i = FetchStep.raiseErr) →
        (ReelsDownloader.download_reel delay u steps maxR h fs post).exit = some 1) ∧
    (∀ (h : History) (fs : FS) (username vid date : String) (step : TikStep),
        (main_tiktok_single_video h fs username vid date step).exit = none) ∧
    (∀ (delay : ℚ) (u2 : Nat → Nat → ℚ) (steps2 : Nat → Nat → FetchStep) (maxR : Nat)
        (h : History) (fs : FS) (username : String) (ms md : Option ℚ)
        (lim : Option Nat) (posts : List Post),
        (ReelsDownloader.download_user_reels delay u2 steps2 maxR h fs username ms md
            lim posts).exit = none) := by
  refine ⟨?_, ?_, ?_⟩
  · intro delay u steps maxR h fs post hnf hall
    unfold ReelsDownloader.download_reel
    simp only [hnf, Bool.false_eq_true, if_false]
    rw [retryGo_all_raise delay u steps post "downloads/instagram" hall maxR 0 _ _ 0]
    simp
  · intro h fs username vid date step
    rfl
  · intro delay u2 steps2 maxR h fs username ms md lim posts
    exact (download_user_reels_spec delay u2 steps2 maxR h fs username ms md lim posts).2

/-- Witness for C9 (amended): a single-reel run whose three attempts all raise
exits with code 1. -/
theorem C9_exit_codes_amended_witness :
    (ReelsDownloader.download_reel 1 (fun _ => 0) (fun _ => FetchStep.raiseErr) 3 [] wFS
        wPost).exit = some 1 :=
  C9_exit_codes_amended.1 1 (fun _ => 0) (fun _ => FetchStep.raiseErr) 3 [] wFS wPost
    (by decide) (fun _ => rfl)

/-- C10: an account's history list never picks up duplicates — both
`_mark_as_downloaded` implementations and the reconciliation branch of
`_is_already_downloaded` preserve duplicate-freedom — and marking an already
recorded pair returns the history unchanged without saving (idempotence). -/
theorem C10_mark_idempotent_nodup :
    (∀ (h : History) (u v : String), recorded h u v = true →
        ReelsDownloader.mark_as_downloaded h u v = (h, false)) ∧
    (∀ (h : History) (u v : String), recorded h u v = true →
        TikTokDownloader.mark_as_downloaded h u v = (h, false)) ∧
    (∀ (h : History) (u v : String), histNodup h →
        histNodup (ReelsDownloader.mark_as_downloaded h u v).1) ∧
    (∀ (h : History) (u v : String), histNodup h →
        histNodup (TikTokDownloader.mark_as_downloaded h u v).1) ∧
    (∀ (h : History) (fs : FS) (u v : String), histNodup h →
        histNodup (ReelsDownloader.is_already_downloaded h fs u v).hist) := by
  refine ⟨mark_of_recorded, ?_, histNodup_mark, ?_, histNodup_is_already⟩
  · intro h u v hr
    rw [tik_mark_eq_reels]
    exact mark_of_recorded h u v hr
  · intro h u v hn
    rw [tik_mark_eq_reels]
    exact histNodup_mark h u v hn

/-- Witness for C10: re-marking the already recorded pair (alice, X1) leaves
the history untouched and skips the save. -/
theorem C10_mark_idempotent_nodup_witness :
    ReelsDownloader.mark_as_downloaded wHist "alice" "X1" = (wHist, false) :=
  C10_mark_idempotent_nodup.1 wHist "alice" "X1" (by decide)
